import Mathlib

/-!
Verification development for the percepta backend (src/server/app.py and
src/server/phase2_vertex.py).  The Python source is shallowly embedded:
pure string processing is modelled on `List Char`, the two hosted-model
network calls are abstracted by passing their responses as arguments, and
JSON values produced by `json.loads` are modelled by the inductive `Json`
below.  Standard-library behaviour (`str.strip`, `re.sub`, `json.loads`,
`html.unescape`) is modelled faithfully for the fragments the code relies
on.
-/

set_option maxRecDepth 10000

/-- Characters treated as whitespace by Python's `str.strip()` and by `\s`
in `re` patterns over `str` (ASCII whitespace, the C1 control separators,
NEL, NBSP and the Unicode space separators). -/
def isPySpace (c : Char) : Bool :=
  c == ' ' || c == '\t' || c == '\n' || c == '\r' || c == '\x0b' || c == '\x0c' ||
  c == '\x1c' || c == '\x1d' || c == '\x1e' || c == '\x1f' || c == '\x85' || c == '\xa0' ||
  c.toNat == 0x1680 || (0x2000 ≤ c.toNat && c.toNat ≤ 0x200a) || c.toNat == 0x2028 ||
  c.toNat == 0x2029 || c.toNat == 0x202f || c.toNat == 0x205f || c.toNat == 0x3000

/-- Python `str.strip()` with no arguments: remove leading and trailing
whitespace. -/
def pyStripL (l : List Char) : List Char :=
  ((l.dropWhile isPySpace).reverse.dropWhile isPySpace).reverse

/-- One step of `re.sub(r"\s+", " ", text)`: the flag records whether the
previous input character belonged to a whitespace run that has already
emitted its single replacement space. -/
def collapseAux : Bool → List Char → List Char
  | _, [] => []
  | b, c :: rest =>
    if isPySpace c then
      if b then collapseAux true rest else ' ' :: collapseAux true rest
    else c :: collapseAux false rest

/-- `re.sub(r"\s+", " ", text)`: each maximal whitespace run becomes one space. -/
def collapseWs (l : List Char) : List Char := collapseAux false l

/-- `text.encode("ascii", "ignore").decode("ascii")`: drop non-ASCII. -/
def asciiIgnore (l : List Char) : List Char := l.filter (fun c => c.toNat < 128)

/-- Python `text.replace(bad, good)` for a single-character pattern and a
single-character replacement. -/
def replOne (bad good : Char) (l : List Char) : List Char :=
  l.map (fun c => if c = bad then good else c)

/-- The replacement loop of `clean_text_for_prompt` (app.py lines 506-518),
applied in the dict's insertion order. -/
def applyReplacements (l : List Char) : List Char :=
  replOne '•' '-' (replOne '’' '\x27' (replOne '‘' '\x27' (replOne '”' '"'
    (replOne '“' '"' (replOne '—' '-' (replOne '–' '-' (replOne '√' '√'
      (replOne '^' '^' (replOne '÷' '÷' (replOne 'X' '×' (replOne 'x' '×'
        (replOne '·' '×' l))))))))))))

/-- JSON values as produced by `json.loads`.  Numbers keep their source
lexeme (the claims under verification never inspect numeric magnitudes);
objects keep their members in source order. -/
inductive Json where
  | null : Json
  | bool (b : Bool) : Json
  | num (lexeme : String) : Json
  | str (s : String) : Json
  | arr (elems : List Json) : Json
  | obj (members : List (String × Json)) : Json

/-- Two-character hex rendering used when escaping control characters. -/
def hexDigitChar (n : Nat) : Char :=
  if n < 10 then Char.ofNat (48 + n) else Char.ofNat (87 + n)

/-- JSON string escaping as performed by `json.dumps(..., ensure_ascii=False)`. -/
def escapeJsonChar (c : Char) : List Char :=
  if c = '"' then '\\' :: '"' :: []
  else if c = '\\' then '\\' :: '\\' :: []
  else if c = '\n' then '\\' :: 'n' :: []
  else if c = '\t' then '\\' :: 't' :: []
  else if c = '\r' then '\\' :: 'r' :: []
  else if c = '\x08' then '\\' :: 'b' :: []
  else if c = '\x0c' then '\\' :: 'f' :: []
  else if c.toNat < 0x20 then
    '\\' :: 'u' :: '0' :: '0' :: hexDigitChar (c.toNat / 16) :: hexDigitChar (c.toNat % 16) :: []
  else c :: []

/-- String body escaping for `json.dumps`. -/
def escapeJsonString (s : String) : List Char :=
  '"' :: (s.data.map escapeJsonChar).flatten ++ ('"' :: [])

mutual
/-- `json.dumps(value, ensure_ascii=False)` with the default separators
`", "` and `": "`, modelled over `Json` (number lexemes are emitted
verbatim). -/
def jsonDumpsL : Json → List Char
  | .null => 'n' :: 'u' :: 'l' :: 'l' :: []
  | .bool true => 't' :: 'r' :: 'u' :: 'e' :: []
  | .bool false => 'f' :: 'a' :: 'l' :: 's' :: 'e' :: []
  | .num lexeme => lexeme.data
  | .str s => escapeJsonString s
  | .arr elems => '[' :: jsonDumpsArr elems ++ (']' :: [])
  | .obj members => '\x7b' :: jsonDumpsObj members ++ ('\x7d' :: [])

/-- Comma-separated rendering of array elements. -/
def jsonDumpsArr : List Json → List Char
  | [] => []
  | [v] => jsonDumpsL v
  | v :: rest => jsonDumpsL v ++ (',' :: ' ' :: jsonDumpsArr rest)

/-- Comma-separated rendering of object members with `": "` after keys. -/
def jsonDumpsObj : List (String × Json) → List Char
  | [] => []
  | [(k, v)] => escapeJsonString k ++ (':' :: ' ' :: jsonDumpsL v)
  | (k, v) :: rest =>
    escapeJsonString k ++ (':' :: ' ' :: jsonDumpsL v) ++ (',' :: ' ' :: jsonDumpsObj rest)
end

mutual
/-- `_ensure_text` (app.py lines 487-497): strings pass through, lists are
space-joined after recursive coercion, dicts are serialized with
`json.dumps`, `None` becomes the empty string, and any other value goes
through generic string conversion (`str(True) = "True"`; number lexemes
stand in for `str` of the parsed number). -/
def ensure_text : Json → String
  | .str s => s
  | .arr items => String.intercalate (" ") (ensureList items)
  | .obj members => String.mk (jsonDumpsL (.obj members))
  | .null => ""
  | .bool true => "True"
  | .bool false => "False"
  | .num lexeme => lexeme

/-- Recursive coercion of the items of a list argument. -/
def ensureList : List Json → List String
  | [] => []
  | v :: rest => ensure_text v :: ensureList rest
end

/-- The pure string pipeline of `clean_text_for_prompt` (app.py lines
506-522): the replacement loop, then whitespace collapsing and stripping,
then the ASCII filter. -/
def cleanPromptL (l : List Char) : List Char :=
  asciiIgnore (pyStripL (collapseWs (applyReplacements l)))

/-- `clean_text_for_prompt` (app.py lines 500-522). -/
def clean_text_for_prompt (value : Json) : String :=
  let text := ensure_text value
  if text = "" then "" else String.mk (cleanPromptL text.data)

/-- The character whitelist of `clean_explanation`'s
`re.sub(r"[^a-zA-Z0-9.,:;!?()'\"*/^~+= _-]+", " ", text)` (app.py line 555). -/
def isWhitelist (c : Char) : Bool :=
  c.isAlpha || c.isDigit || c == '.' || c == ',' || c == ':' || c == ';' || c == '!' ||
  c == '?' || c == '(' || c == ')' || c == '\x27' || c == '"' || c == '*' || c == '/' ||
  c == '^' || c == '~' || c == '+' || c == '=' || c == ' ' || c == '_' || c == '-'

/-- One pass of the whitelist substitution: each maximal run of
non-whitelisted characters becomes a single space (the flag records a run
in progress). -/
def wlAux : Bool → List Char → List Char
  | _, [] => []
  | b, c :: rest =>
    if isWhitelist c then c :: wlAux false rest
    else if b then wlAux true rest else ' ' :: wlAux true rest

/-- `re.sub(r"[^a-zA-Z0-9.,:;!?()'\"*/^~+= _-]+", " ", text)`. -/
def wlSub (l : List Char) : List Char := wlAux false l

/-- Python `text.replace(bad, good)` for a single-character pattern and a
multi-character replacement. -/
def replStr (bad : Char) (good : List Char) (l : List Char) : List Char :=
  (l.map (fun c => if c = bad then good else c :: [])).flatten

/-- The replacement loop of `clean_explanation` (app.py lines 536-552),
applied in the dict's insertion order. -/
def applyExplReplacements (l : List Char) : List Char :=
  replStr '≈' (("~").data) (replStr '±' (("+/-").data) (replStr '°' ((" degrees").data)
    (replStr 'θ' (("theta").data) (replStr '√' (("sqrt").data) (replStr '—' (("-").data)
      (replStr '–' (("-").data) (replStr '÷' (("/").data) (replStr '×' (("*").data)
        (replStr '·' (("*").data) (replStr '³' (("^3").data)
          (replStr '²' (("^2").data) l)))))))))))

/-- Model of `html.unescape` restricted to the five core named entities
(numeric character references are elided: no claim exercises them, and the
claim-relevant behaviour — a string without `&` is returned unchanged — is
exact). -/
def htmlUnescape : List Char → List Char
  | [] => []
  | '&' :: 'a' :: 'm' :: 'p' :: ';' :: rest => '&' :: htmlUnescape rest
  | '&' :: 'l' :: 't' :: ';' :: rest => '<' :: htmlUnescape rest
  | '&' :: 'g' :: 't' :: ';' :: rest => '>' :: htmlUnescape rest
  | '&' :: 'q' :: 'u' :: 'o' :: 't' :: ';' :: rest => '"' :: htmlUnescape rest
  | '&' :: 'a' :: 'p' :: 'o' :: 's' :: ';' :: rest => '\x27' :: htmlUnescape rest
  | c :: rest => c :: htmlUnescape rest

/-- `if len(text) > 250: text = text[:250] + "..."` (app.py lines 559-560). -/
def pyTruncate (l : List Char) : List Char :=
  if 250 < l.length then l.take 250 ++ ('.' :: '.' :: '.' :: []) else l

/-- The pure string pipeline of `clean_explanation` (app.py lines 533-560). -/
def cleanExplL (l : List Char) : List Char :=
  pyTruncate (pyStripL (collapseWs (wlSub (applyExplReplacements (htmlUnescape l)))))

/-- `clean_explanation` (app.py lines 524-562). -/
def clean_explanation (value : Json) : String :=
  let text := ensure_text value
  if text = "" then "" else String.mk (cleanExplL text.data)

/-- `DEFAULT_LENS` (app.py line 53). -/
def DEFAULT_LENS : String := "mathematician"

/-- `LENS_ALIASES` (app.py lines 54-62). -/
def LENS_ALIASES : List (String × String) :=
  [("math", "mathematician"), ("mathematician", "mathematician"),
   ("physics", "physicist"), ("physicist", "physicist"),
   ("bio", "biologist"), ("biologist", "biologist"),
   ("artist", "artist")]

/-- Stand-ins for the four `PHASE1_CONFIG` records (app.py lines 464-469).
Each record holds a multi-page prompt template and few-shot example block;
only the key structure of the table is claim-relevant, so the record
contents are reduced to identifiers. -/
inductive Phase1Cfg where
  | mathematicianCfg : Phase1Cfg
  | physicistCfg : Phase1Cfg
  | biologistCfg : Phase1Cfg
  | artistCfg : Phase1Cfg
deriving DecidableEq

/-- `PHASE1_CONFIG` (app.py lines 464-469). -/
def PHASE1_CONFIG : List (String × Phase1Cfg) :=
  [("mathematician", .mathematicianCfg), ("physicist", .physicistCfg),
   ("biologist", .biologistCfg), ("artist", .artistCfg)]

/-- `MATHEMATICIAN_PROMPT` (app.py lines 23-27). -/
def MATHEMATICIAN_PROMPT : String :=
  "You are a mathematics lens assistant. Translate real-world objects into measurable geometry, proportions, and equations. Keep the tone precise and structured, focusing on formulas that describe dimensions or capacity."

/-- `PHYSICIST_PROMPT` (app.py lines 29-32). -/
def PHYSICIST_PROMPT : String :=
  "You are a physics lens assistant. Describe the object\x27s motion, energy, or forces. Highlight the governing physics equation (F = m·a, P = ρgh, etc.) and explain how it applies to the scene."

/-- `BIOLOGIST_PROMPT` (app.py lines 34-37). -/
def BIOLOGIST_PROMPT : String :=
  "You are a biology lens assistant. Reveal cellular, anatomical, or ecological insights. Reference biological processes and explain how structure supports function."

/-- `ARTIST_PROMPT` (app.py lines 39-42). -/
def ARTIST_PROMPT : String :=
  "You are an artist lens assistant. Describe composition, palette, texture, and lighting cues to inspire creative overlays. Emphasize style and storytelling over scientific diagrams."

/-- `LENS_PROMPTS` (app.py lines 44-51). -/
def LENS_PROMPTS : List (String × String) :=
  [("mathematician", MATHEMATICIAN_PROMPT), ("physicist", PHYSICIST_PROMPT),
   ("biologist", BIOLOGIST_PROMPT), ("artist", ARTIST_PROMPT),
   ("math", MATHEMATICIAN_PROMPT), ("physics", PHYSICIST_PROMPT)]

/-- Python `dict` lookup (`d.get(key)` / `key in d`) over the static tables,
modelled as an association-list search. -/
def alistFind {α : Type} : List (String × α) → String → Option α
  | [], _ => none
  | (k, v) :: rest, key => if key = k then some v else alistFind rest key

/-- Python `str.lower()` restricted to ASCII letters (the alias keys are all
ASCII; see `resolve_lens_mode`). -/
def pyLowerChar (c : Char) : Char :=
  match c with
  | 'A' => 'a' | 'B' => 'b' | 'C' => 'c' | 'D' => 'd' | 'E' => 'e' | 'F' => 'f'
  | 'G' => 'g' | 'H' => 'h' | 'I' => 'i' | 'J' => 'j' | 'K' => 'k' | 'L' => 'l'
  | 'M' => 'm' | 'N' => 'n' | 'O' => 'o' | 'P' => 'p' | 'Q' => 'q' | 'R' => 'r'
  | 'S' => 's' | 'T' => 't' | 'U' => 'u' | 'V' => 'v' | 'W' => 'w' | 'X' => 'x'
  | 'Y' => 'y' | 'Z' => 'z' | c => c

/-- `str.lower()` over a character list. -/
def pyLowerL (l : List Char) : List Char := l.map pyLowerChar

/-- `resolve_lens_mode` (app.py lines 472-478).  `raw_mode` is `Option
String`; Python's truthiness test `if raw_mode:` rejects both `None` and
the empty string. -/
def resolve_lens_mode (raw_mode : Option String) : String :=
  match raw_mode with
  | none => DEFAULT_LENS
  | some s =>
    if s = "" then DEFAULT_LENS
    else
      let normalized := String.mk (pyLowerL (pyStripL s.data))
      let candidate := (alistFind LENS_ALIASES normalized).getD normalized
      if (alistFind PHASE1_CONFIG candidate).isSome then candidate else DEFAULT_LENS

/-- Concrete evaluations of the resolver on mixed-case, padded, and
unrecognized inputs. -/
theorem resolve_lens_mode_samples :
    resolve_lens_mode (some ("Physics ")) = "physicist"
    ∧ resolve_lens_mode (some (" MATH")) = "mathematician"
    ∧ resolve_lens_mode (some ("gibberish")) = "mathematician"
    ∧ resolve_lens_mode none = "mathematician" := by decide

/-- Concrete evaluations of the two cleaners. -/
theorem cleaner_samples :
    clean_text_for_prompt (.str ("box")) = "bo"
    ∧ clean_text_for_prompt (.str ("a x b")) = "a  b"
    ∧ clean_explanation (.str ("Area = π·r² (±5%)")) = "Area = *r^2 (+/-5 )" := by decide

/-! ### Whitespace-shape invariants shared by the two cleaners -/

/-- Well-formed whitespace: every whitespace character is a plain space and
no two whitespace characters are adjacent.  This is the shape `re.sub(r"\s+",
" ", ...)` guarantees, and the shape on which it acts as the identity. -/
def okW : List Char → Prop
  | [] => True
  | c :: rest => (isPySpace c = true → c = ' ' ∧ ∀ d, rest.head? = some d → isPySpace d = false) ∧ okW rest

theorem mem_collapseAux {c : Char} : ∀ (l : List Char) (b : Bool), c ∈ collapseAux b l → c ∈ l ∨ c = ' ' := by
  intro l
  induction l with
  | nil => intro b h; simp [collapseAux] at h
  | cons d rest ih =>
    intro b h
    by_cases hd : isPySpace d = true
    · cases b with
      | true =>
        simp only [collapseAux, hd, if_true] at h
        rcases ih true h with h' | h'
        · exact Or.inl (List.mem_cons_of_mem _ h')
        · exact Or.inr h'
      | false =>
        simp only [collapseAux, hd, if_true] at h
        rcases List.mem_cons.mp h with h' | h'
        · exact Or.inr h'
        · rcases ih true h' with h'' | h''
          · exact Or.inl (List.mem_cons_of_mem _ h'')
          · exact Or.inr h''
    · simp only [collapseAux, hd, if_false, Bool.false_eq_true] at h
      rcases List.mem_cons.mp h with h' | h'
      · exact Or.inl (h' ▸ List.mem_cons_self _ _)
      · rcases ih false h' with h'' | h''
        · exact Or.inl (List.mem_cons_of_mem _ h'')
        · exact Or.inr h''

theorem head?_collapseAux_true : ∀ (l : List Char) (d : Char), (collapseAux true l).head? = some d → isPySpace d = false := by
  intro l
  induction l with
  | nil => intro d h; simp [collapseAux] at h
  | cons c rest ih =>
    intro d h
    by_cases hc : isPySpace c = true
    · simp only [collapseAux, hc, if_true] at h
      exact ih d h
    · simp only [collapseAux, hc, if_false, Bool.false_eq_true, List.head?_cons] at h
      cases h
      exact Bool.eq_false_iff.mpr hc

theorem okW_collapseAux : ∀ (l : List Char) (b : Bool), okW (collapseAux b l) := by
  intro l
  induction l with
  | nil => intro b; simp [collapseAux, okW]
  | cons c rest ih =>
    intro b
    by_cases hc : isPySpace c = true
    · cases b with
      | true => simpa only [collapseAux, hc, if_true] using ih true
      | false =>
        simp only [collapseAux, hc, if_true]
        refine ⟨fun _ => ⟨rfl, fun d hd => head?_collapseAux_true rest d hd⟩, ih true⟩
    · simp only [collapseAux, hc, if_false, Bool.false_eq_true]
      exact ⟨fun hsp => absurd hsp hc, ih false⟩

theorem okW_append_right : ∀ (a b : List Char), okW (a ++ b) → okW b := by
  intro a
  induction a with
  | nil => intro b h; simpa using h
  | cons c a' ih => intro b h; exact ih b h.2

theorem okW_append_left : ∀ (a b : List Char), okW (a ++ b) → okW a := by
  intro a
  induction a with
  | nil => intro b _; trivial
  | cons c a' ih =>
    intro b h
    refine ⟨fun hsp => ⟨(h.1 hsp).1, fun d hd => (h.1 hsp).2 d ?_⟩, ih b h.2⟩
    cases a' with
    | nil => simp at hd
    | cons e a'' => simpa using hd

theorem okW_dropWhile (p : Char → Bool) (l : List Char) (h : okW l) : okW (l.dropWhile p) := by
  have hsplit : l.takeWhile p ++ l.dropWhile p = l := List.takeWhile_append_dropWhile p l
  exact okW_append_right _ _ (hsplit ▸ h)

theorem strip_right_decomp (p : Char → Bool) (m : List Char) :
    m = (m.reverse.dropWhile p).reverse ++ (m.reverse.takeWhile p).reverse := by
  conv_lhs => rw [← m.reverse_reverse, ← List.takeWhile_append_dropWhile p m.reverse]
  rw [List.reverse_append]

theorem mem_dropWhile_subset {c : Char} (p : Char → Bool) : ∀ l : List Char, c ∈ l.dropWhile p → c ∈ l := by
  intro l
  induction l with
  | nil => intro h; simp at h
  | cons d rest ih =>
    intro h
    by_cases hd : p d = true
    · rw [List.dropWhile_cons, if_pos hd] at h
      exact List.mem_cons_of_mem _ (ih h)
    · rw [List.dropWhile_cons, if_neg hd] at h
      exact h

theorem mem_pyStripL {c : Char} (l : List Char) (h : c ∈ pyStripL l) : c ∈ l := by
  unfold pyStripL at h
  rw [List.mem_reverse] at h
  have h1 := mem_dropWhile_subset isPySpace _ h
  rw [List.mem_reverse] at h1
  exact mem_dropWhile_subset isPySpace _ h1

theorem okW_pyStripL (l : List Char) (h : okW l) : okW (pyStripL l) := by
  have h1 : okW (l.dropWhile isPySpace) := okW_dropWhile _ _ h
  have h2 := strip_right_decomp isPySpace (l.dropWhile isPySpace)
  exact okW_append_left _ _ (h2 ▸ h1)

theorem head?_dropWhile_false (p : Char → Bool) : ∀ (l : List Char) (d : Char), (l.dropWhile p).head? = some d → p d = false := by
  intro l
  induction l with
  | nil => intro d h; simp at h
  | cons c rest ih =>
    intro d h
    by_cases hc : p c = true
    · rw [List.dropWhile_cons, if_pos hc] at h
      exact ih d h
    · rw [List.dropWhile_cons, if_neg hc, List.head?_cons] at h
      injection h with h
      subst h
      exact Bool.eq_false_iff.mpr hc

theorem head?_append_of_ne_nil {α : Type} (x y : List α) (h : x ≠ []) : (x ++ y).head? = x.head? := by
  cases x with
  | nil => exact absurd rfl h
  | cons c rest => simp

theorem head?_pyStripL_false (l : List Char) (d : Char) (h : (pyStripL l).head? = some d) : isPySpace d = false := by
  have hdec := strip_right_decomp isPySpace (l.dropWhile isPySpace)
  cases hs : pyStripL l with
  | nil => rw [hs] at h; simp at h
  | cons x xs =>
    rw [hs, List.head?_cons] at h
    injection h with h
    subst h
    unfold pyStripL at hs
    rw [hs] at hdec
    have hhead : (l.dropWhile isPySpace).head? = some x := by
      rw [hdec, head?_append_of_ne_nil _ _ (by simp)]
      rfl
    exact head?_dropWhile_false isPySpace l x hhead

theorem getLast?_append_singleton {α : Type} (c : α) : ∀ (x : List α), (x ++ [c]).getLast? = some c := by
  intro x
  induction x with
  | nil => rfl
  | cons d rest ih =>
    rcases rest with _ | ⟨e, rest'⟩
    · rfl
    · rw [List.cons_append] at ih ⊢
      rw [List.cons_append, List.getLast?_cons_cons]
      exact ih

theorem head?_rev : ∀ (l : List Char), l.reverse.head? = l.getLast? := by
  intro l
  induction l with
  | nil => rfl
  | cons c rest ih =>
    rcases rest with _ | ⟨d, rest'⟩
    · rfl
    · rw [List.getLast?_cons_cons, ← ih, List.reverse_cons,
        head?_append_of_ne_nil _ _ (by simp)]

theorem getLast?_rev (m : List Char) : m.reverse.getLast? = m.head? := by
  have h := head?_rev m.reverse
  rw [List.reverse_reverse] at h
  exact h.symm

theorem getLast?_pyStripL_false (l : List Char) (d : Char) (h : (pyStripL l).getLast? = some d) : isPySpace d = false := by
  unfold pyStripL at h
  rw [getLast?_rev] at h
  exact head?_dropWhile_false isPySpace _ d h

theorem collapseAux_true_eq_false (l : List Char) (h : ∀ d, l.head? = some d → isPySpace d = false) :
    collapseAux true l = collapseAux false l := by
  cases l with
  | nil => rfl
  | cons c rest =>
    have hc : isPySpace c = false := h c rfl
    simp only [collapseAux, hc, Bool.false_eq_true, if_false]

theorem collapse_fix : ∀ l : List Char, okW l → collapseAux false l = l := by
  intro l
  induction l with
  | nil => intro _; rfl
  | cons c rest ih =>
    intro h
    by_cases hc : isPySpace c = true
    · obtain ⟨hsp, hhead⟩ := h.1 hc
      subst hsp
      simp only [collapseAux, hc, if_true]
      rw [collapseAux_true_eq_false rest hhead, ih h.2]
      simp
    · simp only [collapseAux, hc, Bool.false_eq_true, if_false]
      rw [ih h.2]

theorem dropWhile_head_fix (p : Char → Bool) (l : List Char) (h : ∀ d, l.head? = some d → p d = false) :
    l.dropWhile p = l := by
  cases l with
  | nil => rfl
  | cons c rest => rw [List.dropWhile_cons, if_neg (by simp [h c rfl])]

theorem pyStrip_fix (l : List Char)
    (h1 : ∀ d, l.head? = some d → isPySpace d = false)
    (h2 : ∀ d, l.getLast? = some d → isPySpace d = false) :
    pyStripL l = l := by
  unfold pyStripL
  rw [dropWhile_head_fix isPySpace l h1]
  rw [dropWhile_head_fix isPySpace l.reverse (fun d hd => h2 d (by rwa [head?_rev] at hd))]
  exact l.reverse_reverse

theorem asciiIgnore_id (l : List Char) (h : ∀ c ∈ l, c.toNat < 128) : asciiIgnore l = l := by
  unfold asciiIgnore
  rw [List.filter_eq_self]
  intro a ha
  simpa using h a ha

theorem mem_asciiIgnore {c : Char} (l : List Char) (h : c ∈ asciiIgnore l) : c ∈ l ∧ c.toNat < 128 := by
  unfold asciiIgnore at h
  rw [List.mem_filter] at h
  exact ⟨h.1, by simpa using h.2⟩

/-! ### The replacement loop of `clean_text_for_prompt` -/

theorem mem_replOne {c bad good : Char} (l : List Char) (h : c ∈ replOne bad good l) :
    c = good ∨ (c ∈ l ∧ c ≠ bad) := by
  unfold replOne at h
  rw [List.mem_map] at h
  obtain ⟨x, hx, hfx⟩ := h
  by_cases hb : x = bad
  · rw [if_pos hb] at hfx
    exact Or.inl hfx.symm
  · rw [if_neg hb] at hfx
    exact Or.inr ⟨hfx ▸ hx, hfx ▸ hb⟩

theorem replOne_self (a : Char) (l : List Char) : replOne a a l = l := by
  unfold replOne
  have hfun : (fun c => if c = a then a else c) = fun c : Char => c := by
    funext c
    by_cases hc : c = a
    · rw [if_pos hc, hc]
    · rw [if_neg hc]
  rw [hfun]
  exact List.map_id l

theorem replOne_of_not_mem {bad : Char} (good : Char) (l : List Char) (h : bad ∉ l) :
    replOne bad good l = l := by
  unfold replOne
  have hcongr : ∀ c ∈ l, (if c = bad then good else c) = c := by
    intro c hc
    have hne : c ≠ bad := fun he => h (he ▸ hc)
    rw [if_neg hne]
  rw [List.map_congr_left hcongr]
  exact List.map_id l

theorem applyReplacements_no_x (l : List Char) : ∀ c ∈ applyReplacements l, c ≠ 'x' ∧ c ≠ 'X' := by
  intro c h
  unfold applyReplacements at h
  rcases mem_replOne _ h with rfl | ⟨h, _⟩; · exact ⟨by decide, by decide⟩
  rcases mem_replOne _ h with rfl | ⟨h, _⟩; · exact ⟨by decide, by decide⟩
  rcases mem_replOne _ h with rfl | ⟨h, _⟩; · exact ⟨by decide, by decide⟩
  rcases mem_replOne _ h with rfl | ⟨h, _⟩; · exact ⟨by decide, by decide⟩
  rcases mem_replOne _ h with rfl | ⟨h, _⟩; · exact ⟨by decide, by decide⟩
  rcases mem_replOne _ h with rfl | ⟨h, _⟩; · exact ⟨by decide, by decide⟩
  rcases mem_replOne _ h with rfl | ⟨h, _⟩; · exact ⟨by decide, by decide⟩
  rcases mem_replOne _ h with rfl | ⟨h, _⟩; · exact ⟨by decide, by decide⟩
  rcases mem_replOne _ h with rfl | ⟨h, _⟩; · exact ⟨by decide, by decide⟩
  rcases mem_replOne _ h with rfl | ⟨h, _⟩; · exact ⟨by decide, by decide⟩
  rcases mem_replOne _ h with rfl | ⟨h, hX⟩; · exact ⟨by decide, by decide⟩
  rcases mem_replOne _ h with rfl | ⟨h, hx⟩; · exact ⟨by decide, by decide⟩
  exact ⟨hx, hX⟩

theorem applyReplacements_fix (l : List Char)
    (h : ∀ c ∈ l, c.toNat < 128 ∧ c ≠ 'x' ∧ c ≠ 'X') : applyReplacements l = l := by
  have hno : ∀ bad : Char, (128 ≤ bad.toNat ∨ bad = 'x' ∨ bad = 'X') → bad ∉ l := by
    intro bad hbad hmem
    obtain ⟨hlt, hx, hX⟩ := h bad hmem
    rcases hbad with hb | hb | hb
    · omega
    · exact hx hb
    · exact hX hb
  unfold applyReplacements
  rw [replOne_of_not_mem _ _ (hno '·' (by left; decide))]
  rw [replOne_of_not_mem _ _ (hno 'x' (by right; left; rfl))]
  rw [replOne_of_not_mem _ _ (hno 'X' (by right; right; rfl))]
  rw [replOne_self, replOne_self, replOne_self]
  rw [replOne_of_not_mem _ _ (hno '–' (by left; decide))]
  rw [replOne_of_not_mem _ _ (hno '—' (by left; decide))]
  rw [replOne_of_not_mem _ _ (hno '“' (by left; decide))]
  rw [replOne_of_not_mem _ _ (hno '”' (by left; decide))]
  rw [replOne_of_not_mem _ _ (hno '‘' (by left; decide))]
  rw [replOne_of_not_mem _ _ (hno '’' (by left; decide))]
  rw [replOne_of_not_mem _ _ (hno '•' (by left; decide))]

theorem mem_cleanPromptL {c : Char} (l : List Char) (h : c ∈ cleanPromptL l) :
    c.toNat < 128 ∧ c ≠ 'x' ∧ c ≠ 'X' := by
  unfold cleanPromptL at h
  obtain ⟨h1, hlt⟩ := mem_asciiIgnore _ h
  have h2 := mem_pyStripL _ h1
  rcases mem_collapseAux _ _ h2 with h3 | h3
  · exact ⟨hlt, applyReplacements_no_x l c h3⟩
  · subst h3
    exact ⟨hlt, by decide, by decide⟩

theorem cleanPromptL_stable (y : List Char) (h : ∀ c ∈ y, c.toNat < 128 ∧ c ≠ 'x' ∧ c ≠ 'X') :
    cleanPromptL y = pyStripL (collapseWs y) ∧ cleanPromptL (cleanPromptL y) = cleanPromptL y := by
  have hmem2 : ∀ c ∈ pyStripL (collapseWs y), c.toNat < 128 ∧ c ≠ 'x' ∧ c ≠ 'X' := by
    intro c hc
    rcases mem_collapseAux _ _ (mem_pyStripL _ hc) with h3 | h3
    · exact h c h3
    · subst h3; exact ⟨by decide, by decide, by decide⟩
  have hstep : cleanPromptL y = pyStripL (collapseWs y) := by
    unfold cleanPromptL
    rw [applyReplacements_fix y h]
    exact asciiIgnore_id _ (fun c hc => (hmem2 c hc).1)
  refine ⟨hstep, ?_⟩
  rw [hstep]
  have hok : okW (pyStripL (collapseWs y)) := okW_pyStripL _ (okW_collapseAux y false)
  have hcoll : collapseWs (pyStripL (collapseWs y)) = pyStripL (collapseWs y) := collapse_fix _ hok
  have hfix : cleanPromptL (pyStripL (collapseWs y)) = pyStripL (collapseWs y) := by
    unfold cleanPromptL
    rw [applyReplacements_fix _ hmem2, hcoll]
    rw [pyStrip_fix _ (head?_pyStripL_false _) (getLast?_pyStripL_false _)]
    exact asciiIgnore_id _ (fun c hc => (hmem2 c hc).1)
  exact hfix

theorem cleanPromptL_double_fix (l : List Char) :
    cleanPromptL (cleanPromptL (cleanPromptL l)) = cleanPromptL (cleanPromptL l) :=
  (cleanPromptL_stable (cleanPromptL l) (fun c hc => mem_cleanPromptL l hc)).2

theorem data_mk (l : List Char) : (String.mk l).data = l := rfl

theorem clean_str_eq (s : String) : clean_text_for_prompt (.str s) = String.mk (cleanPromptL s.data) := by
  by_cases hs : s = ""
  · subst hs; rfl
  · simp only [clean_text_for_prompt, ensure_text, if_neg hs]

theorem clean_val_eq (v : Json) : clean_text_for_prompt v = String.mk (cleanPromptL (ensure_text v).data) := by
  by_cases hs : ensure_text v = ""
  · simp only [clean_text_for_prompt, if_pos hs, hs]
    rfl
  · simp only [clean_text_for_prompt, if_neg hs]

theorem str_ext {s t : String} (h : s.data = t.data) : s = t := by
  cases s
  cases t
  cases h
  rfl

theorem str_length_data (s : String) : s.length = s.data.length := rfl

theorem clean_str_data (s : String) :
    (clean_text_for_prompt (.str s)).data = cleanPromptL s.data := by
  rw [clean_str_eq]

theorem clean_val_data (v : Json) :
    (clean_text_for_prompt v).data = cleanPromptL (ensure_text v).data := by
  rw [clean_val_eq]

/-- C2 counterexample: `clean_text_for_prompt` is not idempotent.  On the
input `"a x b"` the first pass turns `x` into the multiplication sign and
then drops it as non-ASCII *after* whitespace collapsing, leaving the
double space `"a  b"`, which a second pass collapses to `"a b"`. -/
theorem clean_text_for_prompt_not_idempotent :
    clean_text_for_prompt (.str (clean_text_for_prompt (.str ("a x b")))) ≠
      clean_text_for_prompt (.str ("a x b")) := by decide

/-- C2 (amended): `clean_text_for_prompt` is not idempotent, but applying
it twice is: a third application always returns the second application's
output unchanged. -/
theorem clean_text_for_prompt_twice_idempotent (v : Json) :
    clean_text_for_prompt (.str (clean_text_for_prompt (.str (clean_text_for_prompt v)))) =
      clean_text_for_prompt (.str (clean_text_for_prompt v)) := by
  apply str_ext
  rw [clean_str_data, clean_str_data, clean_val_data]
  exact cleanPromptL_double_fix (ensure_text v).data

/-- C3: the prompt cleaner maps every literal `x`/`X` to the multiplication
sign (which the trailing ASCII filter then drops), so no output of
`clean_text_for_prompt` contains `x` or `X`; in particular `"box"` is
corrupted to `"bo"`. -/
theorem clean_text_for_prompt_erases_x :
    (∀ s : String, 'x' ∉ (clean_text_for_prompt (.str s)).data ∧
      'X' ∉ (clean_text_for_prompt (.str s)).data)
    ∧ clean_text_for_prompt (.str ("box")) = "bo" := by
  constructor
  · intro s
    rw [clean_str_data]
    constructor
    · intro hmem
      exact (mem_cleanPromptL _ hmem).2.1 rfl
    · intro hmem
      exact (mem_cleanPromptL _ hmem).2.2 rfl
  · decide

/-! ### The display cleaner `clean_explanation` -/

theorem mem_wlAux {c : Char} : ∀ (l : List Char) (b : Bool), c ∈ wlAux b l → (c ∈ l ∧ isWhitelist c = true) ∨ c = ' ' := by
  intro l
  induction l with
  | nil => intro b h; simp [wlAux] at h
  | cons d rest ih =>
    intro b h
    by_cases hd : isWhitelist d = true
    · simp only [wlAux, hd, if_true] at h
      rcases List.mem_cons.mp h with h' | h'
      · exact Or.inl ⟨h' ▸ List.mem_cons_self _ _, h' ▸ hd⟩
      · rcases ih false h' with ⟨h1, h2⟩ | h1
        · exact Or.inl ⟨List.mem_cons_of_mem _ h1, h2⟩
        · exact Or.inr h1
    · cases b with
      | true =>
        simp only [wlAux, hd, Bool.false_eq_true, if_false, if_true] at h
        rcases ih true h with ⟨h1, h2⟩ | h1
        · exact Or.inl ⟨List.mem_cons_of_mem _ h1, h2⟩
        · exact Or.inr h1
      | false =>
        simp only [wlAux, hd, Bool.false_eq_true, if_false] at h
        rcases List.mem_cons.mp h with h' | h'
        · exact Or.inr h'
        · rcases ih true h' with ⟨h1, h2⟩ | h1
          · exact Or.inl ⟨List.mem_cons_of_mem _ h1, h2⟩
          · exact Or.inr h1

theorem wlAux_fix : ∀ l : List Char, (∀ c ∈ l, isWhitelist c = true) → ∀ b, wlAux b l = l := by
  intro l
  induction l with
  | nil => intro _ b; rfl
  | cons c rest ih =>
    intro h b
    have hc : isWhitelist c = true := h c (List.mem_cons_self _ _)
    simp only [wlAux, hc, if_true]
    rw [ih (fun d hd => h d (List.mem_cons_of_mem _ hd)) false]

theorem wlSub_fix (l : List Char) (h : ∀ c ∈ l, isWhitelist c = true) : wlSub l = l :=
  wlAux_fix l h false

theorem replStr_of_not_mem {bad : Char} (good : List Char) : ∀ l : List Char, bad ∉ l → replStr bad good l = l := by
  intro l
  induction l with
  | nil => intro _; rfl
  | cons c rest ih =>
    intro h
    have hc : c ≠ bad := fun he => h (he ▸ List.mem_cons_self c rest)
    have hrest : bad ∉ rest := fun hr => h (List.mem_cons_of_mem _ hr)
    have hr := ih hrest
    simp only [replStr, List.map_cons, List.flatten_cons, if_neg hc] at *
    rw [hr]
    rfl

set_option maxHeartbeats 2000000 in
theorem htmlUnescape_cons_ne (c : Char) (rest : List Char) (hc : c ≠ '&') :
    htmlUnescape (c :: rest) = c :: htmlUnescape rest := by
  conv_lhs => rw [htmlUnescape.eq_def]
  split <;> simp_all

theorem htmlUnescape_fix : ∀ l : List Char, (∀ c ∈ l, c ≠ '&') → htmlUnescape l = l := by
  intro l
  induction l with
  | nil => intro _; rfl
  | cons c rest ih =>
    intro h
    rw [htmlUnescape_cons_ne c rest (h c (List.mem_cons_self _ _))]
    rw [ih (fun d hd => h d (List.mem_cons_of_mem _ hd))]

theorem applyExplReplacements_fix (l : List Char) (h : ∀ c ∈ l, isWhitelist c = true) :
    applyExplReplacements l = l := by
  have hno : ∀ bad : Char, isWhitelist bad = false → bad ∉ l := by
    intro bad hbad hmem
    rw [h bad hmem] at hbad
    exact Bool.true_eq_false.mp hbad
  unfold applyExplReplacements
  rw [replStr_of_not_mem _ _ (hno '²' (by decide))]
  rw [replStr_of_not_mem _ _ (hno '³' (by decide))]
  rw [replStr_of_not_mem _ _ (hno '·' (by decide))]
  rw [replStr_of_not_mem _ _ (hno '×' (by decide))]
  rw [replStr_of_not_mem _ _ (hno '÷' (by decide))]
  rw [replStr_of_not_mem _ _ (hno '–' (by decide))]
  rw [replStr_of_not_mem _ _ (hno '—' (by decide))]
  rw [replStr_of_not_mem _ _ (hno '√' (by decide))]
  rw [replStr_of_not_mem _ _ (hno 'θ' (by decide))]
  rw [replStr_of_not_mem _ _ (hno '°' (by decide))]
  rw [replStr_of_not_mem _ _ (hno '±' (by decide))]
  rw [replStr_of_not_mem _ _ (hno '≈' (by decide))]

theorem okW_of_nonspace : ∀ l : List Char, (∀ c ∈ l, isPySpace c = false) → okW l := by
  intro l
  induction l with
  | nil => intro _; trivial
  | cons c rest ih =>
    intro h
    refine ⟨fun hsp => ?_, ih (fun d hd => h d (List.mem_cons_of_mem _ hd))⟩
    rw [h c (List.mem_cons_self _ _)] at hsp
    exact absurd hsp (by simp)

theorem head?_mem {α : Type} {l : List α} {d : α} (h : l.head? = some d) : d ∈ l := by
  cases l with
  | nil => simp at h
  | cons c rest =>
    rw [List.head?_cons] at h
    injection h with h
    exact h ▸ List.mem_cons_self _ _

theorem okW_append_nonspace : ∀ (a suf : List Char), okW a → (∀ c ∈ suf, isPySpace c = false) → okW (a ++ suf) := by
  intro a
  induction a with
  | nil => intro suf _ hs; exact okW_of_nonspace suf hs
  | cons c a' ih =>
    intro suf ha hs
    refine ⟨fun hsp => ⟨(ha.1 hsp).1, fun d hd => ?_⟩, ih suf ha.2 hs⟩
    cases a' with
    | nil => exact hs d (head?_mem (by simpa using hd))
    | cons e a'' =>
      have hde : e = d := by simpa using hd
      exact hde ▸ (ha.1 hsp).2 e rfl

theorem okW_collapseWs (l : List Char) : okW (collapseWs l) := okW_collapseAux l false

theorem collapseWs_fix (l : List Char) (h : okW l) : collapseWs l = l := collapse_fix l h

theorem okW_take (n : Nat) (l : List Char) (h : okW l) : okW (l.take n) :=
  okW_append_left _ _ ((List.take_append_drop n l).symm ▸ h)

theorem okW_pyTruncate (m : List Char) (h : okW m) : okW (pyTruncate m) := by
  unfold pyTruncate
  split
  · exact okW_append_nonspace _ _ (okW_take 250 m h) (by decide)
  · exact h

theorem head?_take_pos {n : Nat} (hn : 0 < n) (l : List Char) : (l.take n).head? = l.head? := by
  cases l with
  | nil => simp
  | cons c rest =>
    cases n with
    | zero => omega
    | succ k => simp

theorem head?_pyTruncate (m : List Char) (hm : ∀ d, m.head? = some d → isPySpace d = false) :
    ∀ d, (pyTruncate m).head? = some d → isPySpace d = false := by
  intro d hd
  unfold pyTruncate at hd
  split at hd
  · rename_i hlen
    have hne : m.take 250 ≠ [] := by
      rw [← List.length_pos, List.length_take]
      omega
    rw [head?_append_of_ne_nil _ _ hne, head?_take_pos (by norm_num)] at hd
    exact hm d hd
  · exact hm d hd

theorem getLast?_pyTruncate (m : List Char) (hm : ∀ d, m.getLast? = some d → isPySpace d = false) :
    ∀ d, (pyTruncate m).getLast? = some d → isPySpace d = false := by
  intro d hd
  unfold pyTruncate at hd
  split at hd
  · have hsplit : m.take 250 ++ ('.' :: '.' :: '.' :: []) = (m.take 250 ++ ('.' :: '.' :: [])) ++ ['.'] := by
      simp
    rw [hsplit, getLast?_append_singleton] at hd
    injection hd with hd
    subst hd
    decide
  · exact hm d hd

theorem pyTruncate_idem (m : List Char) : pyTruncate (pyTruncate m) = pyTruncate m := by
  unfold pyTruncate
  by_cases h : 250 < m.length
  · rw [if_pos h]
    have hlen : (m.take 250 ++ ('.' :: '.' :: '.' :: [])).length = 253 := by
      rw [List.length_append, List.length_take]
      simp
      omega
    rw [if_pos (by rw [hlen]; norm_num)]
    have htk : (m.take 250 ++ ('.' :: '.' :: '.' :: [])).take 250 = m.take 250 := by
      rw [List.take_append_eq_append_take]
      have h250 : (m.take 250).length = 250 := by
        rw [List.length_take]
        omega
      rw [h250, List.take_take]
      simp
    rw [htk]
  · rw [if_neg h, if_neg h]

theorem mem_pyTruncate {c : Char} (m : List Char) (h : c ∈ pyTruncate m) : c ∈ m ∨ c = '.' := by
  unfold pyTruncate at h
  split at h
  · rcases List.mem_append.mp h with h' | h'
    · exact Or.inl (List.take_subset _ _ h')
    · right
      simp at h'
      exact h'
  · exact Or.inl h

theorem mem_cleanExplL_whitelist (l : List Char) : ∀ c ∈ cleanExplL l, isWhitelist c = true := by
  intro c hc
  unfold cleanExplL at hc
  rcases mem_pyTruncate _ hc with h1 | h1
  · rcases mem_collapseAux _ _ (mem_pyStripL _ h1) with h2 | h2
    · rcases mem_wlAux _ _ h2 with ⟨_, h3⟩ | h3
      · exact h3
      · subst h3; decide
    · subst h2; decide
  · subst h1; decide

theorem cleanExplL_idem (l : List Char) : cleanExplL (cleanExplL l) = cleanExplL l := by
  have hwl : ∀ c ∈ cleanExplL l, isWhitelist c = true := mem_cleanExplL_whitelist l
  have hamp : ∀ c ∈ cleanExplL l, c ≠ '&' := by
    intro c hc he
    have := hwl c hc
    rw [he] at this
    exact absurd this (by decide)
  obtain ⟨Z, hZ⟩ : ∃ Z, wlSub (applyExplReplacements (htmlUnescape l)) = Z := ⟨_, rfl⟩
  have hm : cleanExplL l = pyTruncate (pyStripL (collapseWs Z)) := by
    unfold cleanExplL
    rw [hZ]
  conv_lhs => rw [cleanExplL]
  rw [htmlUnescape_fix _ hamp, applyExplReplacements_fix _ hwl, wlSub_fix _ hwl, hm]
  have hokM : okW (pyStripL (collapseWs Z)) := okW_pyStripL _ (okW_collapseWs _)
  have hokT : okW (pyTruncate (pyStripL (collapseWs Z))) := okW_pyTruncate _ hokM
  have hheadT : ∀ d, (pyTruncate (pyStripL (collapseWs Z))).head? = some d → isPySpace d = false :=
    head?_pyTruncate _ (head?_pyStripL_false _)
  have hlastT : ∀ d, (pyTruncate (pyStripL (collapseWs Z))).getLast? = some d → isPySpace d = false :=
    getLast?_pyTruncate _ (getLast?_pyStripL_false _)
  rw [collapseWs_fix _ hokT, pyStrip_fix _ hheadT hlastT]
  exact pyTruncate_idem _

theorem length_mk (l : List Char) : (String.mk l).length = l.length := rfl

theorem clean_expl_str_eq (s : String) : clean_explanation (.str s) = String.mk (cleanExplL s.data) := by
  by_cases hs : s = ""
  · subst hs; rfl
  · simp only [clean_explanation, ensure_text, if_neg hs]

theorem clean_expl_val_eq (v : Json) : clean_explanation v = String.mk (cleanExplL (ensure_text v).data) := by
  by_cases hs : ensure_text v = ""
  · simp only [clean_explanation, if_pos hs, hs]
    rfl
  · simp only [clean_explanation, if_neg hs]

theorem cleanExplL_length (l : List Char) : (cleanExplL l).length ≤ 253 := by
  obtain ⟨M, hM⟩ : ∃ M, pyStripL (collapseWs (wlSub (applyExplReplacements (htmlUnescape l)))) = M :=
    ⟨_, rfl⟩
  have hE : cleanExplL l = pyTruncate M := by
    unfold cleanExplL
    rw [hM]
  rw [hE]
  unfold pyTruncate
  split
  · simp only [List.length_append, List.length_take, List.length_cons, List.length_nil]
    omega
  · rename_i hle
    omega

theorem clean_expl_str_data (s : String) :
    (clean_explanation (.str s)).data = cleanExplL s.data := by
  rw [clean_expl_str_eq]

theorem clean_expl_val_data (v : Json) :
    (clean_explanation v).data = cleanExplL (ensure_text v).data := by
  rw [clean_expl_val_eq]

/-- C5: `clean_explanation` never returns more than 253 characters (250
plus the three-character truncation marker), and every output character
lies in the whitelist of letters, digits, space, and the punctuation set
used by its regex filter. -/
theorem clean_explanation_bounded (v : Json) :
    (clean_explanation v).length ≤ 253 ∧
      ∀ c ∈ (clean_explanation v).data, isWhitelist c = true := by
  rw [str_length_data, clean_expl_val_data]
  exact ⟨cleanExplL_length (ensure_text v).data, mem_cleanExplL_whitelist (ensure_text v).data⟩

/-- C6: the display cleaner `clean_explanation` is idempotent: feeding its
output back through it returns the output unchanged. -/
theorem clean_explanation_idempotent (v : Json) :
    clean_explanation (.str (clean_explanation v)) = clean_explanation v := by
  apply str_ext
  rw [clean_expl_str_data, clean_expl_val_data]
  exact cleanExplL_idem (ensure_text v).data

/-! ### The lens resolver -/

theorem alistFind_eq_none {α : Type} :
    ∀ (al : List (String × α)) (key : String), (∀ k v, (k, v) ∈ al → key ≠ k) →
      alistFind al key = none := by
  intro al
  induction al with
  | nil => intro key _; rfl
  | cons p rest ih =>
    intro key h
    obtain ⟨k, v⟩ := p
    rw [alistFind, if_neg (h k v (List.mem_cons_self _ _))]
    exact ih key (fun k' v' hm => h k' v' (List.mem_cons_of_mem _ hm))

theorem mk_ne_of_data_ne {l : List Char} {t : String} (h : l ≠ t.data) : String.mk l ≠ t := by
  intro he
  exact h (congrArg String.data he)

theorem phase1_keys_of_isSome (c : String) (h : (alistFind PHASE1_CONFIG c).isSome = true) :
    c = "mathematician" ∨ c = "physicist" ∨ c = "biologist" ∨ c = "artist" := by
  simp only [PHASE1_CONFIG, alistFind] at h
  split_ifs at h with h1 h2 h3 h4
  · exact Or.inl h1
  · exact Or.inr (Or.inl h2)
  · exact Or.inr (Or.inr (Or.inl h3))
  · exact Or.inr (Or.inr (Or.inr h4))
  · simp [alistFind] at h

/-- C4: the lens resolver is total and alias/casing/whitespace-insensitive:
`None` and the empty string resolve to the default lens, `"Physics "`
resolves to the physicist lens, every string normalizing (strip + lower) to
an alias key resolves to that alias's canonical lens, every string whose
normalization is not an alias key resolves to the default lens, and every
input resolves to a key of `PHASE1_CONFIG`. -/
theorem resolve_lens_mode_spec :
    resolve_lens_mode none = DEFAULT_LENS
    ∧ resolve_lens_mode (some ("")) = DEFAULT_LENS
    ∧ resolve_lens_mode (some ("Physics ")) = "physicist"
    ∧ (∀ k v : String, (k, v) ∈ LENS_ALIASES → ∀ s : String,
        pyLowerL (pyStripL s.data) = k.data → resolve_lens_mode (some s) = v)
    ∧ (∀ s : String, (∀ k v : String, (k, v) ∈ LENS_ALIASES → pyLowerL (pyStripL s.data) ≠ k.data) →
        resolve_lens_mode (some s) = DEFAULT_LENS)
    ∧ (∀ x : Option String, (alistFind PHASE1_CONFIG (resolve_lens_mode x)).isSome = true) := by
  refine ⟨by decide, by decide, by decide, ?_, ?_, ?_⟩
  · intro k v hkv s hs
    simp only [LENS_ALIASES, List.mem_cons, List.not_mem_nil, or_false, Prod.mk.injEq] at hkv
    by_cases hse : s = ""
    · subst hse
      rcases hkv with ⟨hk, hv⟩ | ⟨hk, hv⟩ | ⟨hk, hv⟩ | ⟨hk, hv⟩ | ⟨hk, hv⟩ | ⟨hk, hv⟩ | ⟨hk, hv⟩ <;>
        subst hk <;> exact absurd hs (by decide)
    · simp only [resolve_lens_mode, if_neg hse]
      rw [hs]
      rcases hkv with ⟨hk, hv⟩ | ⟨hk, hv⟩ | ⟨hk, hv⟩ | ⟨hk, hv⟩ | ⟨hk, hv⟩ | ⟨hk, hv⟩ | ⟨hk, hv⟩ <;>
        subst hk <;> subst hv <;> decide
  · intro s h
    by_cases hse : s = ""
    · subst hse; decide
    · simp only [resolve_lens_mode, if_neg hse]
      have h1 : alistFind LENS_ALIASES (String.mk (pyLowerL (pyStripL s.data))) = none := by
        refine alistFind_eq_none _ _ (fun k v hm => mk_ne_of_data_ne (h k v hm))
      rw [h1]
      have h2 : alistFind PHASE1_CONFIG (String.mk (pyLowerL (pyStripL s.data))) = none := by
        refine alistFind_eq_none _ _ (fun k v hm => ?_)
        simp only [PHASE1_CONFIG, List.mem_cons, List.not_mem_nil, or_false, Prod.mk.injEq] at hm
        rcases hm with ⟨hk, _⟩ | ⟨hk, _⟩ | ⟨hk, _⟩ | ⟨hk, _⟩ <;> subst hk
        · exact mk_ne_of_data_ne (h ("mathematician") ("mathematician") (by decide))
        · exact mk_ne_of_data_ne (h ("physicist") ("physicist") (by decide))
        · exact mk_ne_of_data_ne (h ("biologist") ("biologist") (by decide))
        · exact mk_ne_of_data_ne (h ("artist") ("artist") (by decide))
      simp only [Option.getD_none, h2, Option.isSome_none, Bool.false_eq_true, if_false]
  · intro x
    cases x with
    | none => decide
    | some s =>
      by_cases hse : s = ""
      · subst hse; decide
      · simp only [resolve_lens_mode, if_neg hse]
        split
        · rename_i hsome; exact hsome
        · decide

theorem resolve_lens_mode_mem (x : Option String) :
    resolve_lens_mode x = "mathematician" ∨ resolve_lens_mode x = "physicist" ∨
      resolve_lens_mode x = "biologist" ∨ resolve_lens_mode x = "artist" :=
  phase1_keys_of_isSome _ (resolve_lens_mode_spec.2.2.2.2.2 x)

/-- C10: every resolved lens mode lies in the four-element canonical set,
each member of which is a key of both `LENS_PROMPTS` and `PHASE1_CONFIG`,
so the fallback defaults of the `LENS_PROMPTS.get` lookup in
`generate_equation_facts` and of the `PHASE1_CONFIG.get` lookup in
`build_phase1_prompt` are unreachable for resolved modes. -/
theorem resolve_lens_mode_configured (x : Option String) :
    (resolve_lens_mode x = "mathematician" ∨ resolve_lens_mode x = "physicist" ∨
      resolve_lens_mode x = "biologist" ∨ resolve_lens_mode x = "artist")
    ∧ (alistFind LENS_PROMPTS (resolve_lens_mode x)).isSome = true
    ∧ (alistFind PHASE1_CONFIG (resolve_lens_mode x)).isSome = true := by
  refine ⟨resolve_lens_mode_mem x, ?_, resolve_lens_mode_spec.2.2.2.2.2 x⟩
  rcases resolve_lens_mode_mem x with h | h | h | h <;> rw [h] <;> decide

/-- Witness for C4: a concrete alias resolution with whitespace and casing
(`"  BIO "` resolves to the biologist lens) and a concrete unrecognized
input falling back to the default, both obtained from
`resolve_lens_mode_spec`. -/
theorem resolve_lens_mode_spec_witness :
    resolve_lens_mode (some ("  BIO ")) = "biologist"
    ∧ resolve_lens_mode (some ("klingon")) = DEFAULT_LENS :=
  ⟨resolve_lens_mode_spec.2.2.2.1 ("bio") ("biologist") (by decide) ("  BIO ") (by decide),
   resolve_lens_mode_spec.2.2.2.2.1 ("klingon") (by
      intro k v hm
      simp only [LENS_ALIASES, List.mem_cons, List.not_mem_nil, or_false, Prod.mk.injEq] at hm
      rcases hm with ⟨hk, _⟩ | ⟨hk, _⟩ | ⟨hk, _⟩ | ⟨hk, _⟩ | ⟨hk, _⟩ | ⟨hk, _⟩ | ⟨hk, _⟩ <;>
        subst hk <;> decide)⟩

/-! ### Model of `json.loads` and the facts-extraction step -/

/-- Whitespace accepted between JSON tokens by `json.loads`. -/
def jsonWsChar (c : Char) : Bool := c == ' ' || c == '\t' || c == '\n' || c == '\r'

/-- Skip inter-token whitespace. -/
def skipWs (l : List Char) : List Char := l.dropWhile jsonWsChar

/-- Hexadecimal digit value for `\uXXXX` escapes. -/
def hexVal (c : Char) : Option Nat :=
  if 48 ≤ c.toNat ∧ c.toNat ≤ 57 then some (c.toNat - 48)
  else if 97 ≤ c.toNat ∧ c.toNat ≤ 102 then some (c.toNat - 87)
  else if 65 ≤ c.toNat ∧ c.toNat ≤ 70 then some (c.toNat - 55)
  else none

/-- JSON string-body scanner (after the opening quote): handles the standard
escapes and rejects raw control characters, as `json.loads` does in strict
mode.  Deviation from CPython: lone surrogate escapes are rejected rather
than kept. -/
def parseStringBody : List Char → Option (List Char × List Char)
  | [] => none
  | '"' :: rest => some ([], rest)
  | '\\' :: '"' :: rest => (parseStringBody rest).map (fun p => ('"' :: p.1, p.2))
  | '\\' :: '\\' :: rest => (parseStringBody rest).map (fun p => ('\\' :: p.1, p.2))
  | '\\' :: '/' :: rest => (parseStringBody rest).map (fun p => ('/' :: p.1, p.2))
  | '\\' :: 'b' :: rest => (parseStringBody rest).map (fun p => ('\x08' :: p.1, p.2))
  | '\\' :: 'f' :: rest => (parseStringBody rest).map (fun p => ('\x0c' :: p.1, p.2))
  | '\\' :: 'n' :: rest => (parseStringBody rest).map (fun p => ('\n' :: p.1, p.2))
  | '\\' :: 'r' :: rest => (parseStringBody rest).map (fun p => ('\r' :: p.1, p.2))
  | '\\' :: 't' :: rest => (parseStringBody rest).map (fun p => ('\t' :: p.1, p.2))
  | '\\' :: 'u' :: h1 :: h2 :: h3 :: h4 :: rest =>
    match hexVal h1, hexVal h2, hexVal h3, hexVal h4 with
    | some a, some b, some c, some d =>
      let n := ((a * 16 + b) * 16 + c) * 16 + d
      if 0xd800 ≤ n ∧ n ≤ 0xdfff then none
      else (parseStringBody rest).map (fun p => (Char.ofNat n :: p.1, p.2))
    | _, _, _, _ => none
  | '\\' :: _ => none
  | c :: rest =>
    if c.toNat < 0x20 then none
    else (parseStringBody rest).map (fun p => (c :: p.1, p.2))

/-- Exponent tail of a JSON number (after the `e`/`E`), or `none` when the
exponent is malformed. -/
def expTail (r : List Char) : Option (List Char × List Char) :=
  match r with
  | '+' :: r2 =>
    let ds := r2.takeWhile Char.isDigit
    if ds = [] then none else some ('+' :: ds, r2.dropWhile Char.isDigit)
  | '-' :: r2 =>
    let ds := r2.takeWhile Char.isDigit
    if ds = [] then none else some ('-' :: ds, r2.dropWhile Char.isDigit)
  | _ =>
    let ds := r.takeWhile Char.isDigit
    if ds = [] then none else some (ds, r.dropWhile Char.isDigit)

/-- Fraction and exponent parts of a JSON number, matched greedily like the
`NUMBER_RE` regex of CPython's json module (an invalid tail is simply not
consumed). -/
def fracExp (rest : List Char) : List Char × List Char :=
  let fr : List Char × List Char :=
    match rest with
    | '.' :: r =>
      let ds := r.takeWhile Char.isDigit
      if ds = [] then ([], rest) else ('.' :: ds, r.dropWhile Char.isDigit)
    | _ => ([], rest)
  match fr.2 with
  | 'e' :: r2 =>
    match expTail r2 with
    | some (ex, r3) => (fr.1 ++ ('e' :: ex), r3)
    | none => fr
  | 'E' :: r2 =>
    match expTail r2 with
    | some (ex, r3) => (fr.1 ++ ('E' :: ex), r3)
    | none => fr
  | _ => fr

/-- JSON number lexeme: optional minus, `0` or a nonzero-led digit run,
then optional fraction and exponent. -/
def parseNumber (l : List Char) : Option (List Char × List Char) :=
  let sl : List Char × List Char :=
    match l with
    | '-' :: r => (['-'], r)
    | _ => ([], l)
  match sl.2 with
  | '0' :: r =>
    let fe := fracExp r
    some (sl.1 ++ ('0' :: fe.1), fe.2)
  | c :: r =>
    if c.isDigit then
      let ds := r.takeWhile Char.isDigit
      let fe := fracExp (r.dropWhile Char.isDigit)
      some (sl.1 ++ (c :: ds) ++ fe.1, fe.2)
    else none
  | [] => none

mutual
/-- Model of CPython's `json` scanner: parse one JSON value at the head of
the input, returning the value and the unconsumed rest.  The fuel argument
bounds recursion depth and list length; `parseJsonL` supplies enough. -/
def parseVal : Nat → List Char → Option (Json × List Char)
  | 0, _ => none
  | Nat.succ fuel, l =>
    match l with
    | 'n' :: 'u' :: 'l' :: 'l' :: r => some (.null, r)
    | 't' :: 'r' :: 'u' :: 'e' :: r => some (.bool true, r)
    | 'f' :: 'a' :: 'l' :: 's' :: 'e' :: r => some (.bool false, r)
    | 'N' :: 'a' :: 'N' :: r => some (.num ("NaN"), r)
    | 'I' :: 'n' :: 'f' :: 'i' :: 'n' :: 'i' :: 't' :: 'y' :: r => some (.num ("Infinity"), r)
    | '-' :: 'I' :: 'n' :: 'f' :: 'i' :: 'n' :: 'i' :: 't' :: 'y' :: r => some (.num ("-Infinity"), r)
    | '"' :: r => (parseStringBody r).map (fun p => (.str (String.mk p.1), p.2))
    | '[' :: r =>
      match skipWs r with
      | ']' :: r2 => some (.arr [], r2)
      | r1 => (parseElems fuel r1).map (fun p => (.arr p.1, p.2))
    | '\x7b' :: r =>
      match skipWs r with
      | '\x7d' :: r2 => some (.obj [], r2)
      | r1 => (parseMembers fuel r1).map (fun p => (.obj p.1, p.2))
    | _ => (parseNumber l).map (fun p => (.num (String.mk p.1), p.2))

/-- Comma-separated array elements up to the closing bracket. -/
def parseElems : Nat → List Char → Option (List Json × List Char)
  | 0, _ => none
  | Nat.succ fuel, l =>
    match parseVal fuel (skipWs l) with
    | none => none
    | some (v, r) =>
      match skipWs r with
      | ',' :: r2 => (parseElems fuel r2).map (fun p => (v :: p.1, p.2))
      | ']' :: r2 => some ([v], r2)
      | _ => none

/-- Comma-separated object members up to the closing brace. -/
def parseMembers : Nat → List Char → Option (List (String × Json) × List Char)
  | 0, _ => none
  | Nat.succ fuel, l =>
    match skipWs l with
    | '"' :: r =>
      match parseStringBody r with
      | none => none
      | some (kcs, r1) =>
        match skipWs r1 with
        | ':' :: r2 =>
          match parseVal fuel (skipWs r2) with
          | none => none
          | some (v, r3) =>
            match skipWs r3 with
            | ',' :: r4 => (parseMembers fuel r4).map (fun p => ((String.mk kcs, v) :: p.1, p.2))
            | '\x7d' :: r4 => some ([(String.mk kcs, v)], r4)
            | _ => none
        | _ => none
    | _ => none
end

/-- `json.loads` on a character list: one value, optionally surrounded by
whitespace; anything further is the "Extra data" error (`none`). -/
def parseJsonL (l : List Char) : Option Json :=
  match parseVal (2 * l.length + 4) (skipWs l) with
  | some (v, rest) => if skipWs rest = [] then some v else none
  | none => none

/-- The suffix of the input starting at the first `{`, when one exists. -/
def afterFirstBrace : List Char → Option (List Char)
  | [] => none
  | '\x7b' :: rest => some ('\x7b' :: rest)
  | _ :: rest => afterFirstBrace rest

/-- The prefix of the input up to and including the last `}`, when one
exists. -/
def uptoLastClose (l : List Char) : Option (List Char) :=
  if (l.reverse.dropWhile (fun c => !(c == '\x7d'))) = [] then none
  else some (l.reverse.dropWhile (fun c => !(c == '\x7d'))).reverse

/-- The substring matched by `re.search(r"\{.*\}", text, re.DOTALL)`: from
the first `{` (that has a `}` after it) greedily to the last `}`. -/
def braceSpan (l : List Char) : Option (List Char) :=
  (afterFirstBrace l).bind uptoLastClose

/-- The two content errors `generate_equation_facts` can raise: the explicit
`ValueError` when the regex finds no match, and `json.JSONDecodeError` (a
`ValueError` subclass) from `json.loads`.  The decode error's exact message
is position-dependent and elided. -/
inductive FactsErr where
  | noJson : FactsErr
  | decodeError : FactsErr
deriving DecidableEq

/-- `str(exc)` for the two error kinds. -/
def FactsErr.message : FactsErr → String
  | .noJson => "Model did not return valid JSON."
  | .decodeError => "JSONDecodeError"

/-- `generate_equation_facts` (app.py lines 606-633), modelled from the chat
response onward: the network call is abstracted by the `response` argument;
the code strips the response text, extracts the greedy `\x7b.*\x7d` regex
match, and parses it with `json.loads`.  A raised `ValueError` becomes
`Except.error`. -/
def generate_equation_facts (response : String) : Except FactsErr Json :=
  match braceSpan (pyStripL response.data) with
  | none => .error .noJson
  | some span =>
    match parseJsonL span with
    | none => .error .decodeError
    | some v => .ok v

/-- Concrete evaluations of the facts-extraction step. -/
theorem generate_equation_facts_samples :
    generate_equation_facts ("noise \x7b\"a\": [1, true]\x7d more") =
      .ok (.obj [("a", .arr [.num ("1"), .bool true])])
    ∧ generate_equation_facts ("no braces here") = .error .noJson
    ∧ generate_equation_facts ("\x7bnot json\x7d") = .error .decodeError :=
  ⟨by rfl, by rfl, by rfl⟩

theorem afterFirstBrace_cons_ne (c : Char) (rest : List Char) (hc : c ≠ '\x7b') :
    afterFirstBrace (c :: rest) = afterFirstBrace rest := by
  conv_lhs => rw [afterFirstBrace.eq_def]
  split <;> simp_all

theorem afterFirstBrace_none (l : List Char) (h : ∀ c ∈ l, c ≠ '\x7b') :
    afterFirstBrace l = none := by
  induction l with
  | nil => rfl
  | cons c rest ih =>
    rw [afterFirstBrace_cons_ne c rest (h c (List.mem_cons_self _ _))]
    exact ih (fun d hd => h d (List.mem_cons_of_mem _ hd))

theorem afterFirstBrace_append_of_not_mem (pre x : List Char) (h : '\x7b' ∉ pre) :
    afterFirstBrace (pre ++ x) = afterFirstBrace x := by
  induction pre with
  | nil => rfl
  | cons c pre' ih =>
    rw [List.cons_append,
      afterFirstBrace_cons_ne c _ (fun he => h (he ▸ List.mem_cons_self _ _))]
    exact ih (fun hm => h (List.mem_cons_of_mem _ hm))

theorem afterFirstBrace_some_append (x y m : List Char) (h : afterFirstBrace x = some m) :
    afterFirstBrace (x ++ y) = some (m ++ y) := by
  induction x with
  | nil => simp [afterFirstBrace] at h
  | cons c x' ih =>
    by_cases hc : c = '\x7b'
    · subst hc
      simp only [afterFirstBrace] at h
      cases h
      rw [List.cons_append]
      simp [afterFirstBrace]
    · rw [afterFirstBrace_cons_ne c x' hc] at h
      rw [List.cons_append, afterFirstBrace_cons_ne c _ hc]
      exact ih h

theorem afterFirstBrace_decomp (l m : List Char) (h : afterFirstBrace l = some m) :
    ∃ a, l = a ++ m ∧ ∃ m', m = '\x7b' :: m' := by
  induction l with
  | nil => simp [afterFirstBrace] at h
  | cons c rest ih =>
    by_cases hc : c = '\x7b'
    · subst hc
      simp only [afterFirstBrace] at h
      cases h
      exact ⟨[], rfl, rest, rfl⟩
    · rw [afterFirstBrace_cons_ne c rest hc] at h
      obtain ⟨a, ha, m', hm⟩ := ih h
      exact ⟨c :: a, by rw [List.cons_append, ha], m', hm⟩

theorem dropWhile_append_all {α : Type} (p : α → Bool) (l1 l2 : List α)
    (h : ∀ c ∈ l1, p c = true) : (l1 ++ l2).dropWhile p = l2.dropWhile p := by
  induction l1 with
  | nil => rfl
  | cons c l1' ih =>
    rw [List.cons_append, List.dropWhile_cons, if_pos (h c (List.mem_cons_self _ _))]
    exact ih (fun d hd => h d (List.mem_cons_of_mem _ hd))

theorem mem_takeWhile {α : Type} (p : α → Bool) : ∀ (l : List α) (c : α), c ∈ l.takeWhile p → p c = true := by
  intro l
  induction l with
  | nil => intro c h; simp at h
  | cons d rest ih =>
    intro c h
    by_cases hd : p d = true
    · rw [List.takeWhile_cons, if_pos hd] at h
      rcases List.mem_cons.mp h with h' | h'
      · exact h' ▸ hd
      · exact ih c h'
    · rw [List.takeWhile_cons, if_neg hd] at h
      simp at h

theorem uptoLastClose_append_no_close (m wsuf : List Char) (h : ∀ c ∈ wsuf, c ≠ '\x7d') :
    uptoLastClose (m ++ wsuf) = uptoLastClose m := by
  unfold uptoLastClose
  rw [List.reverse_append, dropWhile_append_all _ _ _ (by
    intro c hc
    rw [List.mem_reverse] at hc
    simp [h c hc])]

theorem uptoLastClose_ends_close (x : List Char) :
    uptoLastClose (x ++ ['\x7d']) = some (x ++ ['\x7d']) := by
  unfold uptoLastClose
  rw [List.reverse_append]
  simp [List.dropWhile]

theorem uptoLastClose_decomp (m span : List Char) (h : uptoLastClose m = some span) :
    ∃ t, m = span ++ t ∧ ∃ s', span = s' ++ ['\x7d'] := by
  unfold uptoLastClose at h
  split_ifs at h with hr
  injection h with h
  subst h
  refine ⟨(m.reverse.takeWhile (fun c => !(c == '\x7d'))).reverse, ?_, ?_⟩
  · conv_lhs => rw [← m.reverse_reverse, ← List.takeWhile_append_dropWhile
      (fun c => !(c == '\x7d')) m.reverse]
    rw [List.reverse_append]
  · cases hdw : m.reverse.dropWhile (fun c => !(c == '\x7d')) with
    | nil => exact absurd hdw hr
    | cons c r' =>
      have hc := head?_dropWhile_false (fun d => !(d == '\x7d')) m.reverse c (by rw [hdw]; rfl)
      simp only [Bool.not_eq_false', beq_iff_eq] at hc
      subst hc
      exact ⟨r'.reverse, by rw [List.reverse_cons]⟩

theorem braceSpan_decomp (l span : List Char) (h : braceSpan l = some span) :
    ∃ a b c2, l = a ++ '\x7b' :: (b ++ '\x7d' :: c2) := by
  unfold braceSpan at h
  cases hafb : afterFirstBrace l with
  | none => rw [hafb] at h; simp at h
  | some m =>
    rw [hafb] at h
    have h2 : uptoLastClose m = some span := h
    obtain ⟨a, ha, m', hm⟩ := afterFirstBrace_decomp l m hafb
    obtain ⟨t, hmt, s', hs⟩ := uptoLastClose_decomp m span h2
    subst hm
    subst ha
    -- span is a nonempty prefix of '\x7b' :: m' and ends with '\x7d'
    cases hsp : s' with
    | nil =>
      subst hsp
      rw [List.nil_append] at hs
      subst hs
      have hcontra := congrArg List.head? hmt
      rw [List.singleton_append] at hcontra
      simp only [List.head?_cons, Option.some.injEq] at hcontra
      exact absurd hcontra (by decide)
    | cons c s'' =>
      subst hsp
      rw [hs] at hmt
      have hhead : c = '\x7b' := by
        have hh := congrArg List.head? hmt
        simp at hh
        exact hh.symm
      subst hhead
      refine ⟨a, s'', t, ?_⟩
      rw [hmt]
      simp

theorem braceSpan_none_of_no_pair (l : List Char)
    (h : ¬ ∃ a b c2 : List Char, l = a ++ '\x7b' :: (b ++ '\x7d' :: c2)) :
    braceSpan l = none := by
  cases hb : braceSpan l with
  | none => rfl
  | some span => exact absurd (braceSpan_decomp l span hb) h

theorem not_mem_of_afterFirstBrace_none (x : List Char) (h : afterFirstBrace x = none) :
    '\x7b' ∉ x := by
  induction x with
  | nil => simp
  | cons c rest ih =>
    by_cases hc : c = '\x7b'
    · subst hc
      simp [afterFirstBrace] at h
    · rw [afterFirstBrace_cons_ne c rest hc] at h
      intro hmem
      rcases List.mem_cons.mp hmem with h' | h'
      · exact hc h'.symm
      · exact ih h h'

theorem braceSpan_append_ws (x wsuf : List Char) (hw : ∀ c ∈ wsuf, isPySpace c = true) :
    braceSpan (x ++ wsuf) = braceSpan x := by
  have hwne : ∀ c ∈ wsuf, c ≠ '\x7d' := fun c hc he => absurd (he ▸ hw c hc) (by decide)
  cases hafb : afterFirstBrace x with
  | some m =>
    unfold braceSpan
    rw [afterFirstBrace_some_append x wsuf m hafb, hafb]
    show uptoLastClose (m ++ wsuf) = uptoLastClose m
    exact uptoLastClose_append_no_close m wsuf hwne
  | none =>
    unfold braceSpan
    rw [afterFirstBrace_append_of_not_mem x wsuf (not_mem_of_afterFirstBrace_none x hafb), hafb]
    rw [afterFirstBrace_none wsuf (fun c hc he => absurd (he ▸ hw c hc) (by decide))]

theorem afb_dropWhile (l : List Char) :
    afterFirstBrace (l.dropWhile isPySpace) = afterFirstBrace l := by
  induction l with
  | nil => rfl
  | cons c rest ih =>
    by_cases hsp : isPySpace c = true
    · have hc : c ≠ '\x7b' := fun he => absurd (he ▸ hsp) (by decide)
      rw [List.dropWhile_cons, if_pos hsp, ih, afterFirstBrace_cons_ne c rest hc]
    · rw [List.dropWhile_cons, if_neg hsp]

theorem braceSpan_pyStripL (l : List Char) : braceSpan (pyStripL l) = braceSpan l := by
  have hdec := strip_right_decomp isPySpace (l.dropWhile isPySpace)
  have h1 : braceSpan (l.dropWhile isPySpace) = braceSpan (pyStripL l) := by
    unfold pyStripL
    conv_lhs => rw [hdec]
    exact braceSpan_append_ws _ _ (fun c hc => by
      rw [List.mem_reverse] at hc
      exact mem_takeWhile _ _ c hc)
  have h2 : braceSpan (l.dropWhile isPySpace) = braceSpan l := by
    unfold braceSpan
    rw [afb_dropWhile l]
  rw [← h1, h2]

/-! ### The overlay client (phase2_vertex.py) and the request handler -/

/-- An inline image carried by a response part, abstracted to an
identifier. -/
inductive Img where
  | mk (id : Nat) : Img
deriving DecidableEq

/-- The contents written to the output file: the saved inline image as-is,
or the image after the `rembg` background-removal filter. -/
inductive ImgFile where
  | raw (i : Img) : ImgFile
  | bgRemoved (i : Img) : ImgFile
deriving DecidableEq

/-- `outputs/{object_name}_{lens_mode}.png` (phase2_vertex.py line 55). -/
def overlay_output_path (object_name lens_mode : String) : String :=
  "outputs/" ++ object_name ++ "_" ++ lens_mode ++ ".png"

/-- The part-scanning loop of `generate_vertex_overlay` (phase2_vertex.py
lines 57-65): response parts are abstracted to their optional inline image.
For the first part carrying inline data the code saves the image, re-opens
the saved file, applies `rembg.remove` and overwrites the file — the writes
are recorded in order — and returns the output path; if no part carries
inline data it falls through and returns `None`. -/
def overlayLoop (outPath : String) : List (Option Img) → List ImgFile × Option String
  | [] => ([], none)
  | none :: rest => overlayLoop outPath rest
  | some img :: _ => ([.raw img, .bgRemoved img], some outPath)

/-- `generate_vertex_overlay` (phase2_vertex.py lines 14-65) from the
image-generation response onward: the prompt construction and the network
call are elided (the lens-conditional branch there selects only the prompt
text); the response's parts are the `parts` argument.  Note the scanning
loop does not branch on `lens_mode`, mirroring the source. -/
def generate_vertex_overlay (prompt_text object_name : String) (image_path : Option String)
    (lens_mode : String) (explanation : Option String) (parts : List (Option Img)) :
    List ImgFile × Option String :=
  overlayLoop (overlay_output_path object_name lens_mode) parts

/-- The first response part carrying inline image data. -/
def firstInline : List (Option Img) → Option Img
  | [] => none
  | some i :: _ => some i
  | none :: rest => firstInline rest

/-- The fallback rendering brief of `process_object_detection`
(app.py line 670). -/
def DEFAULT_GUIDE : String := "Create a neon diagram of the object."

/-- The field-cleaning loop of `process_object_detection` (app.py lines
665-667): each of `equation`, `explanation`, `guide` present in the parsed
object is replaced by its prompt-cleaned string. -/
def cleanPhase1 : Json → Json
  | .obj members =>
    .obj (members.map (fun kv =>
      if kv.1 = "equation" || kv.1 = "explanation" || kv.1 = "guide"
      then (kv.1, .str (clean_text_for_prompt kv.2)) else kv))
  | v => v

/-- The members of a parsed phase-1 object (the extracted JSON always parses
to an object because the regex span starts with `\x7b`). -/
def jsonMembers : Json → List (String × Json)
  | .obj members => members
  | _ => []

/-- The handler's JSON result, reduced to the fields the claims mention:
a success payload or an error status with its message. -/
inductive HandlerResult where
  | ok (equation : Option Json) (explanation : String) (lensMode : String)
      (annotatedPath : String) : HandlerResult
  | err (status : Nat) (message : String) : HandlerResult

/-- `process_object_detection` (app.py lines 642-697) from the two model
responses onward: request persistence and base64 transport are elided; the
chat response and the image-generation parts are arguments.  The
`except ValueError` arm surfaces both facts errors (the explicit
`ValueError` and `json.JSONDecodeError`, its subclass) as a 400 with the
exception message; the `RuntimeError` raised when the overlay step returns
no image is caught by the generic `except Exception` arm as a 500 with
"Failed to process object.". -/
def process_object_detection (factsResponse : String) (parts : List (Option Img))
    (payloadLensMode : Option String) (label : String) (image_path : String) : HandlerResult :=
  let lens_mode := resolve_lens_mode payloadLensMode
  match generate_equation_facts factsResponse with
  | .error e => .err 400 e.message
  | .ok phase1 =>
    let members := jsonMembers (cleanPhase1 phase1)
    let explanation := clean_explanation ((alistFind members ("explanation")).getD (.str ("")))
    let guide :=
      match alistFind members ("guide") with
      | some g => ensure_text g
      | none => DEFAULT_GUIDE
    match (generate_vertex_overlay guide label (some image_path) lens_mode
        (some explanation) parts).2 with
    | none => .err 500 ("Failed to process object.")
    | some path => .ok (alistFind members ("equation")) explanation lens_mode path

theorem overlayLoop_all_none (outPath : String) :
    ∀ parts : List (Option Img), (∀ p ∈ parts, p = none) → overlayLoop outPath parts = ([], none) := by
  intro parts
  induction parts with
  | nil => intro _; rfl
  | cons p rest ih =>
    intro h
    have hp : p = none := h p (List.mem_cons_self _ _)
    subst hp
    exact ih (fun q hq => h q (List.mem_cons_of_mem _ hq))

theorem generate_vertex_overlay_eq (a b : String) (c : Option String) (d : String)
    (e : Option String) (parts : List (Option Img)) :
    generate_vertex_overlay a b c d e parts = overlayLoop (overlay_output_path b d) parts := rfl

/-- C8 counterexample: with the non-math `"physicist"` lens mode and a
response carrying an inline image, the final file write is the
background-removed image, not the raw saved image the claim requires for
non-math lenses. -/
theorem generate_vertex_overlay_bg_removal_cex :
    (generate_vertex_overlay ("guide") ("ball") none ("physicist") none
        [some (Img.mk 0)]).1.getLast? = some (ImgFile.bgRemoved (Img.mk 0))
    ∧ (generate_vertex_overlay ("guide") ("ball") none ("physicist") none
        [some (Img.mk 0)]).1.getLast? ≠ some (ImgFile.raw (Img.mk 0))
    ∧ (generate_vertex_overlay ("guide") ("ball") none ("physicist") none
        [some (Img.mk 0)]).2 = some ("outputs/ball_physicist.png") :=
  ⟨rfl, by decide, rfl⟩

/-- C8 (amended): `generate_vertex_overlay` saves the first inline image to
the deterministic path derived from object name and lens mode and then
overwrites it with its background-removed version for every lens mode —
the scanning loop has no lens-mode branch. -/
theorem generate_vertex_overlay_always_removes_bg
    (prompt_text object_name : String) (image_path : Option String) (lens_mode : String)
    (explanation : Option String) (parts : List (Option Img)) (img : Img)
    (h : firstInline parts = some img) :
    generate_vertex_overlay prompt_text object_name image_path lens_mode explanation parts =
      ([ImgFile.raw img, ImgFile.bgRemoved img],
        some (overlay_output_path object_name lens_mode)) := by
  rw [generate_vertex_overlay_eq]
  revert h
  induction parts with
  | nil => intro h; simp [firstInline] at h
  | cons p rest ih =>
    intro h
    cases p with
    | some i =>
      rw [show firstInline (some i :: rest) = some i from rfl] at h
      injection h with h
      subst h
      rfl
    | none =>
      rw [show firstInline (none :: rest) = firstInline rest from rfl] at h
      exact ih h

/-- Witness for C8 (amended): a concrete artist-lens call whose inline image
is saved and then overwritten with the background-removed version. -/
theorem generate_vertex_overlay_always_removes_bg_witness :
    generate_vertex_overlay ("g") ("cup") none ("artist") none [none, some (Img.mk 7)] =
      ([ImgFile.raw (Img.mk 7), ImgFile.bgRemoved (Img.mk 7)], some ("outputs/cup_artist.png")) := by
  rw [generate_vertex_overlay_always_removes_bg ("g") ("cup") none ("artist") none
    [none, some (Img.mk 7)] (Img.mk 7) (by rfl)]
  rfl

/-- C9: when no response part carries inline image data the overlay client
returns no saved file and a null path, and the request handler turns this
into a 500 "Failed to process object." hard failure rather than a partial
success. -/
theorem overlay_no_inline_is_hard_failure
    (factsResponse : String) (v : Json) (parts : List (Option Img))
    (payloadLensMode : Option String) (label image_path : String)
    (prompt_text object_name : String) (ipath : Option String) (lens_mode : String)
    (expl : Option String)
    (hfacts : generate_equation_facts factsResponse = .ok v)
    (hparts : ∀ p ∈ parts, p = none) :
    generate_vertex_overlay prompt_text object_name ipath lens_mode expl parts = ([], none)
    ∧ process_object_detection factsResponse parts payloadLensMode label image_path =
        .err 500 ("Failed to process object.") := by
  refine ⟨by rw [generate_vertex_overlay_eq]; exact overlayLoop_all_none _ parts hparts, ?_⟩
  unfold process_object_detection
  rw [hfacts]
  dsimp only []
  rw [generate_vertex_overlay_eq, overlayLoop_all_none _ parts hparts]

/-- Witness for C9: a concrete parsable facts response with an imageless
overlay response yields a null overlay and the 500 failure. -/
theorem overlay_no_inline_is_hard_failure_witness :
    generate_vertex_overlay ("g") ("cup") none ("math") none [none, none] = ([], none)
    ∧ process_object_detection ("\x7b\"a\": 1\x7d") [none, none] none ("cup") ("up.png") =
        .err 500 ("Failed to process object.") :=
  overlay_no_inline_is_hard_failure ("\x7b\"a\": 1\x7d") (.obj [("a", .num ("1"))])
    [none, none] none ("cup") ("up.png") ("g") ("cup") none ("math") none
    (by rfl) (by decide)

/-- C7: facts-extraction error signaling.  A response with no `\x7b`-then-
`\x7d` substring makes `generate_equation_facts` raise the `ValueError`
"Model did not return valid JSON.", surfaced by the handler as a 400; a
response whose greedy brace span does not parse as JSON makes it raise the
decode error, also surfaced as a 400.  The model is single-shot by
construction: each pipeline run consumes exactly one response argument, so
no retry occurs. -/
theorem generate_equation_facts_error_signaling :
    (∀ (response : String) (parts : List (Option Img)) (rawMode : Option String)
        (label ipath : String),
      (¬ ∃ a b c2 : List Char, response.data = a ++ '\x7b' :: (b ++ '\x7d' :: c2)) →
      generate_equation_facts response = .error .noJson
      ∧ FactsErr.message .noJson = "Model did not return valid JSON."
      ∧ process_object_detection response parts rawMode label ipath =
          .err 400 ("Model did not return valid JSON."))
    ∧ (∀ (response : String) (span : List Char) (parts : List (Option Img))
        (rawMode : Option String) (label ipath : String),
      braceSpan response.data = some span →
      parseJsonL span = none →
      generate_equation_facts response = .error .decodeError
      ∧ process_object_detection response parts rawMode label ipath =
          .err 400 (FactsErr.message .decodeError)) := by
  constructor
  · intro response parts rawMode label ipath h
    have hspan : braceSpan (pyStripL response.data) = none := by
      rw [braceSpan_pyStripL]
      exact braceSpan_none_of_no_pair _ h
    have hfacts : generate_equation_facts response = .error .noJson := by
      unfold generate_equation_facts
      rw [hspan]
    refine ⟨hfacts, rfl, ?_⟩
    unfold process_object_detection
    rw [hfacts]
    rfl
  · intro response span parts rawMode label ipath hspan hparse
    have hspan' : braceSpan (pyStripL response.data) = some span := by
      rw [braceSpan_pyStripL]
      exact hspan
    have hfacts : generate_equation_facts response = .error .decodeError := by
      unfold generate_equation_facts
      rw [hspan']
      show (match parseJsonL span with
        | none => (Except.error FactsErr.decodeError : Except FactsErr Json)
        | some v => Except.ok v) = Except.error FactsErr.decodeError
      rw [hparse]
    refine ⟨hfacts, ?_⟩
    unfold process_object_detection
    rw [hfacts]

/-- Witness for C7: a concrete brace-free response raising the "no JSON"
ValueError with a 400, and a concrete malformed-span response raising the
decode error with a 400. -/
theorem generate_equation_facts_error_signaling_witness :
    (generate_equation_facts ("no json here") = .error .noJson
      ∧ FactsErr.message .noJson = "Model did not return valid JSON."
      ∧ process_object_detection ("no json here") [] none ("cup") ("p.png") =
          .err 400 ("Model did not return valid JSON."))
    ∧ (generate_equation_facts ("\x7boops\x7d") = .error .decodeError
      ∧ process_object_detection ("\x7boops\x7d") [] none ("cup") ("p.png") =
          .err 400 (FactsErr.message .decodeError)) := by
  constructor
  · refine generate_equation_facts_error_signaling.1 ("no json here") [] none ("cup") ("p.png") ?_
    intro hex
    obtain ⟨a, b, c2, h⟩ := hex
    have hmem : '\x7b' ∈ (("no json here") : String).data := by
      rw [h]
      simp
    exact absurd hmem (by decide)
  · exact generate_equation_facts_error_signaling.2 ("\x7boops\x7d") (("\x7boops\x7d").data)
      [] none ("cup") ("p.png") (by rfl) (by rfl)

/-- Does the character list parse exactly (no surrounding characters) as a
JSON object? -/
def isStrictJsonObject (s : List Char) : Bool :=
  match parseVal (2 * s.length + 4) s with
  | some (.obj _, []) => true
  | _ => false

/-- The number of substrings (counted by position) of the input that are
exact serializations of a JSON object — the formalization of "contains
exactly one valid JSON object" when this count is 1. -/
def countObjSubstrings (l : List Char) : Nat :=
  ((l.tails.map List.inits).flatten).countP isStrictJsonObject

/-- C1 counterexample: the response `Result: \x7b"a": 1\x7d \x7d` contains
exactly one valid JSON object substring, which parses, yet the
facts-extraction step fails with a decode error because the greedy regex
extends the match through the stray final `\x7d` in the prose. -/
theorem generate_equation_facts_greedy_cex :
    countObjSubstrings (("Result: \x7b\"a\": 1\x7d \x7d").data) = 1
    ∧ parseJsonL (("\x7b\"a\": 1\x7d").data) = some (.obj [("a", .num ("1"))])
    ∧ generate_equation_facts ("Result: \x7b\"a\": 1\x7d \x7d") = .error .decodeError :=
  ⟨by decide, by rfl, by rfl⟩

/-- C1 (amended): extraction is exact whenever the surrounding prose cannot
extend the greedy match: for every response `pre ++ J ++ post` where
`J = \x7b ... \x7d` parses as JSON, `pre` contains no `\x7b` and `post`
contains no `\x7d`, the facts step returns exactly `J`'s parsed value. -/
theorem generate_equation_facts_extracts (s : String) (pre mid post : List Char) (v : Json)
    (hdecomp : s.data = pre ++ ('\x7b' :: mid ++ ['\x7d']) ++ post)
    (hpre : '\x7b' ∉ pre) (hpost : '\x7d' ∉ post)
    (hparse : parseJsonL ('\x7b' :: mid ++ ['\x7d']) = some v) :
    generate_equation_facts s = .ok v := by
  have h1 : afterFirstBrace (pre ++ ('\x7b' :: mid ++ ['\x7d']) ++ post) =
      some (('\x7b' :: mid ++ ['\x7d']) ++ post) := by
    rw [List.append_assoc, afterFirstBrace_append_of_not_mem pre _ hpre]
    rw [show ('\x7b' :: mid ++ ['\x7d']) ++ post = '\x7b' :: (mid ++ ['\x7d'] ++ post) from by simp]
    rw [show afterFirstBrace ('\x7b' :: (mid ++ ['\x7d'] ++ post)) =
      some ('\x7b' :: (mid ++ ['\x7d'] ++ post)) from rfl]
  have hspan : braceSpan (pre ++ ('\x7b' :: mid ++ ['\x7d']) ++ post) =
      some ('\x7b' :: mid ++ ['\x7d']) := by
    unfold braceSpan
    rw [h1]
    have h2 : uptoLastClose (('\x7b' :: mid ++ ['\x7d']) ++ post) =
        uptoLastClose ('\x7b' :: mid ++ ['\x7d']) :=
      uptoLastClose_append_no_close _ post (fun c hc he => hpost (he ▸ hc))
    have h3 : uptoLastClose ('\x7b' :: mid ++ ['\x7d']) = some ('\x7b' :: mid ++ ['\x7d']) := by
      rw [show '\x7b' :: mid ++ ['\x7d'] = ('\x7b' :: mid) ++ ['\x7d'] from by simp]
      exact uptoLastClose_ends_close ('\x7b' :: mid)
    show uptoLastClose (('\x7b' :: mid ++ ['\x7d']) ++ post) = some ('\x7b' :: mid ++ ['\x7d'])
    rw [h2, h3]
  unfold generate_equation_facts
  rw [braceSpan_pyStripL, hdecomp, hspan]
  show (match parseJsonL ('\x7b' :: mid ++ ['\x7d']) with
    | none => (Except.error FactsErr.decodeError : Except FactsErr Json)
    | some v => Except.ok v) = Except.ok v
  rw [hparse]

/-- Witness for C1 (amended): concrete prose around a JSON object with no
stray braces is extracted and parsed exactly. -/
theorem generate_equation_facts_extracts_witness :
    generate_equation_facts ("Sure: \x7b\"a\": 1\x7d ok") = .ok (.obj [("a", .num ("1"))]) :=
  generate_equation_facts_extracts ("Sure: \x7b\"a\": 1\x7d ok") (("Sure: ").data)
    (("\"a\": 1").data) ((" ok").data) (.obj [("a", .num ("1"))])
    (by rfl) (by decide) (by decide) (by rfl)
